import Mathlib

/-!
Verification development for the Gemini SSE streaming proxy
(`src/route.ts` and its companion type files).

The development shallowly embeds the route's pure logic:

* environment-variable configuration (`parseAllowedOrigins`, `corsHeaders`,
  `createGenAI`),
* the turn normalization performed by the `POST` and `GET` handlers,
* the SSE event encoder `sseEvent` together with a JSON
  serializer/deserializer pair modelling `JSON.stringify` / the client-side
  frame parsing,
* the session-bridge callback machinery (`onopen` / `onmessage` / `onerror` /
  `onclose` and the `closeWith` finalizer) as explicit state passing over a
  writer state, under two delivery schedules for remote signals:
  one callback per event-loop turn (`runSeq`), and all signals delivered in
  the same synchronous turn (`runBatch`), matching the simulated sessions of
  the repository tests.

JavaScript `undefined` is modelled with `Option`, JS truthiness with explicit
`jsTruthy*` functions, thrown exceptions with `Except`, and `try { } catch { }`
swallowing with the `*Safe` wrappers.  JSON numbers are modelled as integers:
non-integral floating-point literals are outside the embedding.
-/

namespace GeminiStream

/-! ## Environment and configuration (src/route.ts lines 19-96) -/

/-- The environment variables read by the route.  `none` models an unset
variable (JS `undefined`). -/
structure Env where
  CORS_ALLOW_ORIGINS : Option String := none
  CORS_ALLOW_CREDENTIALS : Option String := none
  GOOGLE_GENAI_USE_VERTEXAI : Option String := none
  GOOGLE_CLOUD_PROJECT : Option String := none
  GOOGLE_CLOUD_LOCATION : Option String := none
  GOOGLE_API_KEY : Option String := none
  GEMINI_API_KEY : Option String := none
  GOOGLE_GENAI_API_VERSION : Option String := none

/-- JS `String.prototype.trim`: drop whitespace from both ends.  The JS
whitespace class is approximated by `Char.isWhitespace` (space, tab, CR,
LF), which covers every character the configuration values at issue can
contain. -/
def jsTrim (s : String) : String :=
  String.mk (((s.data.dropWhile Char.isWhitespace).reverse.dropWhile
    Char.isWhitespace).reverse)

/-- Accumulator pass for `jsSplitComma`. -/
def splitCommaAux : List Char → List Char → List String
  | [], acc => [String.mk acc.reverse]
  | ',' :: rest, acc => String.mk acc.reverse :: splitCommaAux rest []
  | c :: rest, acc => splitCommaAux rest (c :: acc)

/-- JS `s.split(",")`: the comma-separated pieces of `s`, in order; the
empty string yields `[""]` and `n` commas yield `n + 1` pieces. -/
def jsSplitComma (s : String) : List String :=
  splitCommaAux s.data []

/-- JS truthiness of a `string | undefined` value: `undefined` and the empty
string are falsy. -/
def jsTruthyStr : Option String → Bool
  | none => false
  | some s => !(s == "")

/-- JS `a || b` on `string | undefined` values. -/
def jsOr (a b : Option String) : Option String :=
  if jsTruthyStr a then a else b

/-- The allow-list computed by `parseAllowedOrigins` is either the wildcard
or an explicit origin list. -/
inductive AllowedOrigins where
  | wildcard
  | list (origins : List String)
deriving DecidableEq

/-- `parseAllowedOrigins` (src/route.ts lines 19-27): trims the raw env value,
returns the wildcard when the value is unset, trims to empty, or is the
literal star; otherwise splits on commas, trims each part, keeps the truthy
(non-empty) parts, and falls back to the wildcard when none remain. -/
def parseAllowedOrigins (corsAllowOrigins : Option String) : AllowedOrigins :=
  match corsAllowOrigins with
  | none => .wildcard
  | some v =>
    let raw := jsTrim v
    if raw = "" ∨ raw = "*" then .wildcard
    else
      let parts := ((jsSplitComma raw).map jsTrim).filter (fun s => s ≠ "")
      if parts = [] then .wildcard else .list parts

/-- The headers `corsHeaders` may set.  The three constant headers are kept
verbatim; the conditional ones are `Option`s (`none` = header not set). -/
structure CorsHeaders where
  allowMethods : String
  allowHeaders : String
  maxAge : String
  allowOrigin : Option String
  vary : Option String
  allowCredentials : Option String
deriving DecidableEq

/-- `corsHeaders` (src/route.ts lines 29-53).  `origin` is the request origin
header (`none` models the `undefined` the callers pass when it is absent or
empty).  Note the allow-credentials header is set from the env flag
regardless of the branch the allow-list took. -/
def corsHeaders (env : Env) (origin : Option String) : CorsHeaders :=
  let allowList := parseAllowedOrigins env.CORS_ALLOW_ORIGINS
  let allowCredentials := env.CORS_ALLOW_CREDENTIALS = some "true"
  let base : CorsHeaders :=
    { allowMethods := "GET,POST,OPTIONS"
      allowHeaders := "Content-Type, Authorization"
      maxAge := "86400"
      allowOrigin := none
      vary := none
      allowCredentials := none }
  let withOrigin :=
    match allowList with
    | .wildcard => { base with allowOrigin := some "*" }
    | .list l =>
      match origin with
      | some o =>
        if o ≠ "" ∧ l.contains o then
          { base with allowOrigin := some o, vary := some "Origin" }
        else base
      | none => base
  if allowCredentials then { withOrigin with allowCredentials := some "true" }
  else withOrigin

/-- The client configuration `createGenAI` would construct. -/
inductive GenAIClient where
  | vertex (project location : String) (apiVersion : Option String)
  | apiKeyClient (key : String) (apiVersion : Option String)
deriving DecidableEq

/-- The error message thrown when Vertex AI mode is on but the project or
location is missing (src/route.ts lines 73-75). -/
def vertexMissingMsg : String :=
  "Vertex AI mode enabled (GOOGLE_GENAI_USE_VERTEXAI=true) but GOOGLE_CLOUD_PROJECT or GOOGLE_CLOUD_LOCATION is missing."

/-- The error message thrown when no API key is configured
(src/route.ts lines 87-89). -/
def missingKeyMsg : String :=
  "Missing GOOGLE_API_KEY or GEMINI_API_KEY environment variable."

/-- `createGenAI` (src/route.ts lines 62-96): Vertex AI mode when the flag is
the literal string true, requiring a truthy project and location; otherwise
API-key mode requiring a truthy `GOOGLE_API_KEY || GEMINI_API_KEY`.  A thrown
`Error` is modelled as `Except.error` carrying the message. -/
def createGenAI (env : Env) : Except String GenAIClient :=
  let useVertex := env.GOOGLE_GENAI_USE_VERTEXAI = some "true"
  let apiVersion :=
    if jsTruthyStr env.GOOGLE_GENAI_API_VERSION then env.GOOGLE_GENAI_API_VERSION
    else none
  if useVertex then
    if jsTruthyStr env.GOOGLE_CLOUD_PROJECT && jsTruthyStr env.GOOGLE_CLOUD_LOCATION then
      .ok (.vertex (env.GOOGLE_CLOUD_PROJECT.getD "") (env.GOOGLE_CLOUD_LOCATION.getD "")
        apiVersion)
    else .error vertexMissingMsg
  else
    let apiKey := jsOr env.GOOGLE_API_KEY env.GEMINI_API_KEY
    if jsTruthyStr apiKey then .ok (.apiKeyClient (apiKey.getD "") apiVersion)
    else .error missingKeyMsg

/-! ## Turn normalization (src/route.ts lines 113-125 and 308-313) -/

/-- The runtime shape of the `input` field of the POST body after
`req.json().catch(() => ({}))`: absent, a string, an array of strings, or any
other JSON value (`other`, the malformed case). -/
inductive InputValue where
  | undef
  | str (s : String)
  | arr (xs : List String)
  | other
deriving DecidableEq

/-- The POST body after parsing: `{ input?, model? }`
(src/unnamed/part_006, `GeminiStreamRequest`). -/
structure PostBody where
  input : InputValue := .undef
  model : Option String := none

/-- The default model string (src/route.ts line 118). -/
def defaultModel : String := "models/gemini-2.5-flash-preview-native-audio-dialog"

/-- The default greeting turn. -/
def defaultTurn : String := "Hello!"

/-- The POST handler's turn normalization (src/route.ts lines 121-125):
an array passes through unchanged (even when empty); a non-empty string
becomes a singleton; everything else becomes `["Hello!"]`. -/
def normalizeTurns : InputValue → List String
  | .arr xs => xs
  | .str s => if s.length > 0 then [s] else [defaultTurn]
  | .undef => [defaultTurn]
  | .other => [defaultTurn]

/-- The GET handler's turn normalization (src/route.ts line 313), applied to
the repeated `input` query parameters: a non-empty list passes through,
an empty list becomes `["Hello!"]`. -/
def getTurns (input : List String) : List String :=
  if input.length > 0 then input else [defaultTurn]

/-! ## Handler outcomes up to the point a stream is opened -/

/-- What the POST handler does before any SSE frame can exist: either a
non-streaming JSON error response, or it proceeds to open a live session
with the given turns and model (the streaming part is the bridge below). -/
inductive PostOutcome where
  | jsonError (status : Nat) (error : String)
  | streamOpened (turns : List String) (model : String) (client : GenAIClient)
deriving DecidableEq

/-- The configuration phase of `POST` (src/route.ts lines 98-125): a
`createGenAI` throw is caught and answered with a 500 JSON error before any
stream or session exists; otherwise the body is normalized and a session is
opened with the resulting turns. -/
def POSTmodel (env : Env) (body : PostBody) : PostOutcome :=
  match createGenAI env with
  | .error msg => .jsonError 500 msg
  | .ok client =>
    .streamOpened (normalizeTurns body.input) (body.model.getD defaultModel) client

/-- What the GET handler does before any SSE frame can exist.  The
`healthBranch` constructor stands for the `health=1` short-circuit
(src/route.ts lines 248-306), whose probe outcome depends on external
network state and is out of scope for the claims below. -/
inductive GetOutcome where
  | jsonError (status : Nat) (error : String)
  | healthBranch
  | streamOpened (turns : List String) (model : String) (client : GenAIClient)
deriving DecidableEq

/-- The configuration phase of `GET` (src/route.ts lines 229-313): the
`createGenAI` try/catch comes first, before the health check, so a missing
credential yields the 500 JSON error on every GET; with a client, `health=1`
short-circuits, and otherwise the query turns are normalized and a session
is opened. -/
def GETmodel (env : Env) (health : Bool) (input : List String)
    (modelOverride : Option String) : GetOutcome :=
  match createGenAI env with
  | .error msg => .jsonError 500 msg
  | .ok client =>
    if health then .healthBranch
    else .streamOpened (getTurns input) (modelOverride.getD defaultModel) client

/-! ## Substring testing (used to state that an error message mentions the
missing credential) -/

/-- `startsWithL pat l` : `pat` is a prefix of `l`. -/
def startsWithL : List Char → List Char → Bool
  | [], _ => true
  | _ :: _, [] => false
  | p :: ps, c :: cs => (p == c) && startsWithL ps cs

/-- `hasSubL l pat` : `pat` occurs contiguously inside `l`. -/
def hasSubL : List Char → List Char → Bool
  | [], pat => startsWithL pat []
  | c :: cs, pat => startsWithL pat (c :: cs) || hasSubL cs pat

/-- `strContains s pat` : `pat` occurs inside `s`. -/
def strContains (s pat : String) : Bool :=
  hasSubL s.data pat.data

/-- The trimmed, non-empty comma-separated entries of an allow-origins
value, in their original order (the claim-side description of the
allow-list entries). -/
def originEntries (s : String) : List String :=
  ((jsSplitComma (jsTrim s)).map jsTrim).filter (fun p => p ≠ "")

/-- An `Env` with every variable unset. -/
def envEmpty : Env := {}

/-- An `Env` with only an API key set. -/
def envKeyOnly : Env := { GOOGLE_API_KEY := some "k" }

/-- An `Env` with a wildcard allow-list and the allow-credentials flag on:
`CORS_ALLOW_ORIGINS="*"`, `CORS_ALLOW_CREDENTIALS="true"`. -/
def envWildcardCred : Env :=
  { CORS_ALLOW_ORIGINS := some "*", CORS_ALLOW_CREDENTIALS := some "true" }

/-! ## JSON values (the data `JSON.stringify` serializes)

JSON numbers are modelled as integers; non-integral floating-point values
are outside the embedding.  The three types are mutually inductive so that
structural recursion and induction over arrays and objects are direct. -/

mutual
inductive Json where
  | null
  | bool (b : Bool)
  | num (n : Int)
  | str (s : String)
  | arr (elems : JsonList)
  | obj (fields : JsonFields)
deriving DecidableEq
inductive JsonList where
  | nil
  | cons (hd : Json) (tl : JsonList)
deriving DecidableEq
inductive JsonFields where
  | nil
  | cons (key : String) (val : Json) (tl : JsonFields)
deriving DecidableEq
end

/-- The decimal digit character for `n < 10`. -/
def digitChar (n : Nat) : Char := Char.ofNat (48 + n)

/-- The lowercase hexadecimal digit character for `n < 16` (the case
`JSON.stringify` uses in `\u00XX` escapes). -/
def hexDigitChar (n : Nat) : Char :=
  if n < 10 then digitChar n else Char.ofNat (87 + n)

/-- The decimal digits of a natural number, most significant first
(how a JS engine prints an integral number). -/
def natChars (n : Nat) : List Char :=
  if n < 10 then [digitChar n]
  else natChars (n / 10) ++ [digitChar (n % 10)]
decreasing_by exact Nat.div_lt_self (by omega) (by omega)

/-- The decimal form of an integer, with a leading minus sign when
negative. -/
def intChars (i : Int) : List Char :=
  if i < 0 then '-' :: natChars i.natAbs else natChars i.toNat

/-- `JSON.stringify` escaping of one character inside a string literal:
quote and backslash are backslash-escaped, the named control characters get
their short escapes, the remaining control characters get `\u00XX`, and
every other character is emitted verbatim. -/
def escChar (c : Char) : List Char :=
  if c = '"' then ['\\', '"']
  else if c = '\\' then ['\\', '\\']
  else if c = Char.ofNat 8 then ['\\', 'b']
  else if c = '\t' then ['\\', 't']
  else if c = '\n' then ['\\', 'n']
  else if c = Char.ofNat 12 then ['\\', 'f']
  else if c = Char.ofNat 13 then ['\\', 'r']
  else if c.toNat < 32 then
    ['\\', 'u', '0', '0', hexDigitChar (c.toNat / 16), hexDigitChar (c.toNat % 16)]
  else [c]

/-- `JSON.stringify` escaping of a whole string body. -/
def escStr : List Char → List Char
  | [] => []
  | c :: cs => escChar c ++ escStr cs

/-- The keyword `null` as characters. -/
def nullChars : List Char := ['n', 'u', 'l', 'l']

/-- The keyword `true` as characters. -/
def trueChars : List Char := ['t', 'r', 'u', 'e']

/-- The keyword `false` as characters. -/
def falseChars : List Char := ['f', 'a', 'l', 's', 'e']

mutual
/-- `JSON.stringify` (compact form: no whitespace), as a character list. -/
def stringifyL : Json → List Char
  | .null => nullChars
  | .bool true => trueChars
  | .bool false => falseChars
  | .num i => intChars i
  | .str s => '"' :: (escStr s.data ++ ['"'])
  | .arr es => '[' :: (stringifyElems es ++ [']'])
  | .obj fs => '{' :: (stringifyFields fs ++ ['}'])
/-- Comma-separated serialization of array elements. -/
def stringifyElems : JsonList → List Char
  | .nil => []
  | .cons j .nil => stringifyL j
  | .cons j tl => stringifyL j ++ ',' :: stringifyElems tl
/-- Comma-separated serialization of object fields (insertion order, the
order `JSON.stringify` uses). -/
def stringifyFields : JsonFields → List Char
  | .nil => []
  | .cons k v .nil => '"' :: (escStr k.data ++ '"' :: ':' :: stringifyL v)
  | .cons k v tl =>
    ('"' :: (escStr k.data ++ '"' :: ':' :: stringifyL v)) ++ ',' :: stringifyFields tl
end

/-- `JSON.stringify` as a string. -/
def jsonStringify (j : Json) : String := String.mk (stringifyL j)

/-! ## Outbound events and the SSE encoder (src/route.ts lines 14-16 and
src/unnamed/part_000, `GeminiSSEEvent`) -/

/-- The tagged outbound event union: `open`, `message` with an arbitrary
payload, `close` with a reason, `end` with an optional message, and `error`
with an error string. -/
inductive Ev where
  | openEv
  | message (payload : Json)
  | closeEv (reason : String)
  | endEv (message : Option Json)
  | errorEv (error : String)
deriving DecidableEq

/-- The `type` tag of an event. -/
def evType : Ev → String
  | .openEv => "open"
  | .message _ => "message"
  | .closeEv _ => "close"
  | .endEv _ => "end"
  | .errorEv _ => "error"

/-- The type tags of a list of events. -/
def evTypes (l : List Ev) : List String := l.map evType

/-- The JS object value an event is built as before serialization
(`{ type: "message", payload }` and so on); an `end` event with no message
serializes without the `message` key, exactly as `JSON.stringify` drops
`undefined`-valued properties. -/
def evToJson : Ev → Json
  | .openEv => .obj (.cons "type" (.str "open") .nil)
  | .message p => .obj (.cons "type" (.str "message") (.cons "payload" p .nil))
  | .closeEv r => .obj (.cons "type" (.str "close") (.cons "reason" (.str r) .nil))
  | .endEv (some m) => .obj (.cons "type" (.str "end") (.cons "message" m .nil))
  | .endEv none => .obj (.cons "type" (.str "end") .nil)
  | .errorEv m => .obj (.cons "type" (.str "error") (.cons "error" (.str m) .nil))

/-- Reading an event back from its parsed JSON shape (how a client
interprets the decoded frame). -/
def evOfJson : Json → Option Ev
  | .obj (.cons "type" (.str "open") .nil) => some .openEv
  | .obj (.cons "type" (.str "message") (.cons "payload" p .nil)) => some (.message p)
  | .obj (.cons "type" (.str "close") (.cons "reason" (.str r) .nil)) => some (.closeEv r)
  | .obj (.cons "type" (.str "end") (.cons "message" m .nil)) => some (.endEv (some m))
  | .obj (.cons "type" (.str "end") .nil) => some (.endEv none)
  | .obj (.cons "type" (.str "error") (.cons "error" (.str m) .nil)) => some (.errorEv m)
  | _ => none

/-- `sseEvent` applied to an arbitrary JSON value (src/route.ts lines 14-16):
the literal prefix `data: `, the JSON serialization, then two newlines. -/
def sseFrameOfJson (j : Json) : String :=
  "data: " ++ jsonStringify j ++ "\n\n"

/-- `sseEvent` applied to an outbound event value. -/
def sseEvent (e : Ev) : String := sseFrameOfJson (evToJson e)

/-- Everything of the frame before the two-newline terminator. -/
def frameBody (e : Ev) : List Char :=
  "data: ".data ++ stringifyL (evToJson e)

/-- The number of positions at which the two-character sequence LF LF
occurs in a character list. -/
def occursNLNL : List Char → Nat
  | [] => 0
  | [_] => 0
  | a :: b :: rest =>
    (if a = '\n' ∧ b = '\n' then 1 else 0) + occursNLNL (b :: rest)

/-! ## The client-side frame parser

The client contract (spec section 4.3, and `readSSE` in the repository
tests): split on the two-newline terminator, strip the `data:` prefix and
any following whitespace, and JSON-decode.  The JSON parser below is a
recursive-descent parser for the compact fragment `JSON.stringify`
produces; it uses explicit fuel so that every function is structurally
recursive. -/

/-- The numeric value of a hexadecimal digit character. -/
def hexVal (c : Char) : Option Nat :=
  if '0' ≤ c ∧ c ≤ '9' then some (c.toNat - 48)
  else if 'a' ≤ c ∧ c ≤ 'f' then some (c.toNat - 87)
  else if 'A' ≤ c ∧ c ≤ 'F' then some (c.toNat - 55)
  else none

/-- The character a short JSON escape `\x` denotes. -/
def unescape (e : Char) : Option Char :=
  if e = '"' then some '"'
  else if e = '\\' then some '\\'
  else if e = '/' then some '/'
  else if e = 'b' then some (Char.ofNat 8)
  else if e = 'f' then some (Char.ofNat 12)
  else if e = 'n' then some '\n'
  else if e = 'r' then some '\r'
  else if e = 't' then some '\t'
  else none

/-- Parse the body of a JSON string literal (after the opening quote) up to
and including the closing quote, returning the decoded characters and the
remaining input. -/
def parseStrBody : List Char → Option (List Char × List Char)
  | [] => none
  | c :: rest =>
    if c = '"' then some ([], rest)
    else if c = '\\' then
      match rest with
      | [] => none
      | e :: rest2 =>
        if e = 'u' then
          match rest2 with
          | a :: b :: c2 :: d :: rest3 =>
            match hexVal a, hexVal b, hexVal c2, hexVal d with
            | some x, some y, some z, some w =>
              (parseStrBody rest3).map
                (fun p => (Char.ofNat (4096 * x + 256 * y + 16 * z + w) :: p.1, p.2))
            | _, _, _, _ => none
          | _ => none
        else
          match unescape e with
          | some u => (parseStrBody rest2).map (fun p => (u :: p.1, p.2))
          | none => none
    else (parseStrBody rest).map (fun p => (c :: p.1, p.2))

/-- The natural number a list of decimal digit characters denotes. -/
def digitsToNat (ds : List Char) : Nat :=
  ds.foldl (fun a c => 10 * a + (c.toNat - 48)) 0

/-- Parse a maximal non-empty run of decimal digits. -/
def parseDigits (cs : List Char) : Option (Nat × List Char) :=
  let ds := cs.takeWhile Char.isDigit
  if ds = [] then none
  else some (digitsToNat ds, cs.dropWhile Char.isDigit)

mutual
/-- Parse one JSON value of the compact fragment. -/
def parseVal : Nat → List Char → Option (Json × List Char)
  | 0, _ => none
  | fuel + 1, cs =>
    match cs with
    | [] => none
    | c :: rest =>
      if c.isDigit then
        (parseDigits (c :: rest)).map (fun p => (.num (p.1 : Int), p.2))
      else if c = '-' then
        (parseDigits rest).map (fun p => (.num (-(p.1 : Int)), p.2))
      else if c = '"' then
        (parseStrBody rest).map (fun p => (.str (String.mk p.1), p.2))
      else if c = '[' then
        match rest with
        | [] => none
        | r1 :: rr =>
          if r1 = ']' then some (.arr .nil, rr)
          else (parseElems fuel (r1 :: rr)).map (fun p => (.arr p.1, p.2))
      else if c = '{' then
        match rest with
        | [] => none
        | r1 :: rr =>
          if r1 = '}' then some (.obj .nil, rr)
          else (parseFields fuel (r1 :: rr)).map (fun p => (.obj p.1, p.2))
      else
        match cs with
        | 'n' :: 'u' :: 'l' :: 'l' :: r => some (.null, r)
        | 't' :: 'r' :: 'u' :: 'e' :: r => some (.bool true, r)
        | 'f' :: 'a' :: 'l' :: 's' :: 'e' :: r => some (.bool false, r)
        | _ => none
/-- Parse the elements of a non-empty array, consuming the closing
bracket. -/
def parseElems : Nat → List Char → Option (JsonList × List Char)
  | 0, _ => none
  | fuel + 1, cs =>
    match parseVal fuel cs with
    | none => none
    | some (j, rest) =>
      match rest with
      | ',' :: r2 => (parseElems fuel r2).map (fun p => (.cons j p.1, p.2))
      | ']' :: r2 => some (.cons j .nil, r2)
      | _ => none
/-- Parse the fields of a non-empty object, consuming the closing brace. -/
def parseFields : Nat → List Char → Option (JsonFields × List Char)
  | 0, _ => none
  | fuel + 1, cs =>
    match cs with
    | '"' :: kb =>
      match parseStrBody kb with
      | none => none
      | some (k, r1) =>
        match r1 with
        | ':' :: r2 =>
          match parseVal fuel r2 with
          | none => none
          | some (v, r3) =>
            match r3 with
            | ',' :: r4 => (parseFields fuel r4).map (fun p => (.cons (String.mk k) v p.1, p.2))
            | '}' :: r4 => some (.cons (String.mk k) v .nil, r4)
            | _ => none
        | _ => none
    | _ => none
end

/-- JSON-decode a whole character list: the input length plus one is always
enough fuel, and no input may remain. -/
def jsonDecodeAll (cs : List Char) : Option Json :=
  match parseVal (cs.length + 1) cs with
  | some (j, []) => some j
  | _ => none

/-- Strip the two-newline terminator from the end of a frame. -/
def stripEndNLNL (cs : List Char) : Option (List Char) :=
  match cs.reverse with
  | '\n' :: '\n' :: r => some r.reverse
  | _ => none

/-- The client-side parse of one SSE frame: split on the two-newline
terminator, require and strip the `data:` prefix, skip following
whitespace, and JSON-decode the remainder. -/
def parseSSEFrame (frame : String) : Option Json :=
  match stripEndNLNL frame.data with
  | none => none
  | some chunk =>
    match chunk with
    | 'd' :: 'a' :: 't' :: 'a' :: ':' :: body =>
      jsonDecodeAll (body.dropWhile Char.isWhitespace)
    | _ => none

/-! ## Fuel accounting for the roundtrip proof -/

mutual
/-- Fuel sufficient for `parseVal` to parse the serialization of `j`. -/
def needFuel : Json → Nat
  | .arr es => 1 + needElems es
  | .obj fs => 1 + needFields fs
  | _ => 1
/-- Fuel sufficient for `parseElems` on the serialization of `es`. -/
def needElems : JsonList → Nat
  | .nil => 0
  | .cons j tl => 1 + max (needFuel j) (needElems tl)
/-- Fuel sufficient for `parseFields` on the serialization of `fs`. -/
def needFields : JsonFields → Nat
  | .nil => 0
  | .cons _ v tl => 1 + max (needFuel v) (needFields tl)
end

/-- The head of the remaining input is not a decimal digit (so a parsed
number cannot greedily absorb it). -/
def notDigitHead : List Char → Bool
  | [] => true
  | c :: _ => !c.isDigit

/-- The characters a compact JSON serialization can start with: a digit or
one of the eight fixed leading characters. -/
def goodHead (c : Char) : Bool :=
  c.isDigit || (c == '-') || (c == '"') || (c == '[') || (c == '{') ||
    (c == 'n') || (c == 't') || (c == 'f')

/-! ## The session bridge (src/route.ts lines 129-216)

The bridge owns a byte-stream writer and a session handle.  Writes and
closes on the writer are fallible (`Except`), modelling the rejected
promises a `WritableStream` produces once closing has been requested;
`try { } catch { }` swallowing is the `*Safe` wrappers and `closeWith`. -/

/-- JS truthiness of an arbitrary JSON value (`if (message)` in
`closeWith`). -/
def jsTruthyJson : Json → Bool
  | .null => false
  | .bool b => b
  | .num n => !(n == 0)
  | .str s => !(s == "")
  | .arr _ => true
  | .obj _ => true

/-- Field lookup in a JSON object field list (first match). -/
def fieldsLookup : JsonFields → String → Option Json
  | .nil, _ => none
  | .cons k v tl, key => if k = key then some v else fieldsLookup tl key

/-- JS property access `j[k]` on a JSON value: `none` models `undefined`. -/
def jsGet (j : Json) (k : String) : Option Json :=
  match j with
  | .obj fs => fieldsLookup fs k
  | _ => none

/-- The check `message.serverContent?.turnComplete` (src/route.ts line 171)
on the raw message payload. -/
def turnCompleteOf (payload : Json) : Bool :=
  match jsGet payload "serverContent" with
  | none => false
  | some sc =>
    match jsGet sc "turnComplete" with
    | none => false
    | some tc => jsTruthyJson tc

/-- The outbound byte-stream writer: the frames written so far, and whether
closing has been requested. -/
structure Writer where
  frames : List Ev
  closed : Bool
deriving DecidableEq

/-- `writer.write(sseEvent e)`: enqueues the frame, or rejects when closing
has been requested. -/
def wwrite (w : Writer) (e : Ev) : Except Unit Writer :=
  if w.closed then .error ()
  else .ok { w with frames := w.frames ++ [e] }

/-- `writer.close()`: requests closing, or rejects when already requested. -/
def wclose (w : Writer) : Except Unit Writer :=
  if w.closed then .error () else .ok { w with closed := true }

/-- A write whose rejection is swallowed (a write inside `try { } catch { }`). -/
def wwriteSafe (w : Writer) (e : Ev) : Writer :=
  match wwrite w e with
  | .ok w2 => w2
  | .error _ => w

/-- A close whose rejection is swallowed. -/
def wcloseSafe (w : Writer) : Writer :=
  match wclose w with
  | .ok w2 => w2
  | .error _ => w

/-- `closeWith` (src/route.ts lines 133-144): when the message is truthy,
best-effort write of the `end` frame, then best-effort close; every failure
is swallowed, so the operation is total — it never surfaces an error to its
caller. -/
def closeWith (w : Writer) (message : Option Json) : Writer :=
  let w1 :=
    match message with
    | some m => if jsTruthyJson m then wwriteSafe w (.endEv (some m)) else w
    | none => w
  wcloseSafe w1

/-- The remote session handle: only its closed flag is observable here. -/
structure Session where
  closed : Bool
deriving DecidableEq

/-- `session.close()` on the SDK handle: may throw when already closed. -/
def sclose (s : Session) : Except Unit Session :=
  if s.closed then .error () else .ok { closed := true }

/-- `try { session.close() } catch { }` — the form every call site uses. -/
def scloseSafe (s : Session) : Session :=
  match sclose s with
  | .ok s2 => s2
  | .error _ => s

/-- The bridge state: the byte-stream writer and the session handle. -/
structure BState where
  writer : Writer
  session : Session
deriving DecidableEq

/-- The state when the session callbacks are registered: empty stream, both
handles open. -/
def initialBState : BState :=
  { writer := { frames := [], closed := false }, session := { closed := false } }

/-- The remote signals the session delivers to its registered callbacks. -/
inductive Signal where
  | sopen
  | smessage (payload : Json)
  | serror (msg : String)
  | sclose (reason : String)
deriving DecidableEq

/-- The first (and for `onopen` the only) frame each callback writes. -/
def firstEv : Signal → Ev
  | .sopen => .openEv
  | .smessage p => .message p
  | .serror m => .errorEv m
  | .sclose r => .closeEv r

/-- What a callback does after its first write resolves: `none` when it
only wrote its frame, otherwise whether it closes the session handle and
the message its `closeWith` call carries. -/
def contOf : Signal → Option (Bool × String)
  | .sopen => none
  | .smessage p => if turnCompleteOf p then some (true, "turn_complete") else none
  | .serror _ => some (true, "error")
  | .sclose _ => some (false, "closed")

/-- One remote signal processed with its callback run to completion before
the next signal arrives (signals delivered in separate event-loop turns,
the schedule of a real remote peer).  A write rejection aborts the rest of
the callback: the first writes of `onmessage`, `onerror` and `onclose` are
not inside `try`, so a rejection is an unhandled rejection that skips the
remaining statements. -/
def stepSeq (st : BState) (s : Signal) : BState :=
  match wwrite st.writer (firstEv s) with
  | .error _ => st
  | .ok w =>
    match contOf s with
    | none => { st with writer := w }
    | some (doSessionClose, msg) =>
      { writer := closeWith w (some (.str msg))
        session := if doSessionClose then scloseSafe st.session else st.session }

/-- A whole run under one-signal-per-turn delivery. -/
def runSeq (st : BState) (sigs : List Signal) : BState :=
  sigs.foldl stepSeq st

/-! ### Same-turn delivery

When the session delivers several signals in one synchronous turn (the
schedule of the repository's simulated sessions, whose mocks invoke the
callbacks back to back inside one microtask without awaiting them), the
async callbacks interleave at their await points.  `writer.write` enqueues
its chunk synchronously and returns a promise; the promises of a
`TransformStream` writer resolve in FIFO order as the chunks are processed.
Consequently a batch of signals executes in three phases:

1. every callback performs its first write, in delivery order, before any
   continuation runs (all the first writes are enqueued inside the one
   synchronous turn);
2. the continuations resume in delivery order as their write promises
   resolve in FIFO order; each closes the session handle if it does so and
   performs the `end`-frame write of its `closeWith` call, then awaits it —
   all these `end` writes are enqueued before any of them resolves;
3. the `writer.close()` calls of the `closeWith` continuations then run in
   the same order; the first succeeds, the rest reject and are swallowed. -/

/-- Phase 1: every first write in delivery order; each signal is marked
with whether its write was accepted (its callback aborts otherwise). -/
def phase1 : Writer → List Signal → Writer × List (Signal × Bool)
  | w, [] => (w, [])
  | w, s :: rest =>
    match wwrite w (firstEv s) with
    | .ok w2 =>
      let (w3, acc) := phase1 w2 rest
      (w3, (s, true) :: acc)
    | .error _ =>
      let (w3, acc) := phase1 w rest
      (w3, (s, false) :: acc)

/-- Phase 2: the continuations of the started callbacks in order — session
close and the best-effort `end` write of `closeWith`; returns the number of
callbacks whose `writer.close()` is still pending. -/
def phase2a : BState → List (Signal × Bool) → BState × Nat
  | st, [] => (st, 0)
  | st, (s, started) :: rest =>
    if started then
      match contOf s with
      | some (doSessionClose, msg) =>
        let st2 : BState :=
          { writer := wwriteSafe st.writer (.endEv (some (.str msg)))
            session := if doSessionClose then scloseSafe st.session else st.session }
        let (st3, n) := phase2a st2 rest
        (st3, n + 1)
      | none => phase2a st rest
    else phase2a st rest

/-- Phase 3: the pending best-effort closes. -/
def closeN : Writer → Nat → Writer
  | w, 0 => w
  | w, n + 1 => closeN (wcloseSafe w) n

/-- A whole batch of signals delivered in the same synchronous turn. -/
def runBatch (st : BState) (sigs : List Signal) : BState :=
  let (w1, started) := phase1 st.writer sigs
  let (st2, closers) := phase2a { st with writer := w1 } started
  { st2 with writer := closeN st2.writer closers }

/-! ### Stream-shape predicates -/

/-- Is this frame an `end` frame? -/
def isEnd : Ev → Bool
  | .endEv _ => true
  | _ => false

/-- Does the frame list contain an `end` frame? -/
def hasEndB (l : List Ev) : Bool := l.any isEnd

/-- Every `end` frame in the list is its final frame (hence also: at most
one `end` frame, and nothing follows it). -/
def endTerminalB : List Ev → Bool
  | [] => true
  | e :: rest => if isEnd e then rest.isEmpty else endTerminalB rest

/-- The number of `end` frames. -/
def countEnds (l : List Ev) : Nat := (l.filter isEnd).length

/-! ## Theorems -/

/-! ### Writer and finalizer lemmas -/

theorem wcloseSafe_closed (w : Writer) : (wcloseSafe w).closed = true := by
  unfold wcloseSafe wclose
  by_cases h : w.closed
  · simp [h]
  · simp [h]

theorem closeWith_closed (w : Writer) (m : Option Json) :
    (closeWith w m).closed = true := by
  unfold closeWith
  exact wcloseSafe_closed _

theorem closeWith_of_closed (w : Writer) (h : w.closed = true) (m : Option Json) :
    closeWith w m = w := by
  unfold closeWith wwriteSafe wwrite wcloseSafe wclose
  cases m with
  | none => simp [h]
  | some mm =>
    by_cases ht : jsTruthyJson mm
    · simp [h, ht]
    · simp [h, ht]

theorem closeWith_open (w : Writer) (hw : w.closed = false) (m : String)
    (hm : (m == "") = false) :
    closeWith w (some (.str m)) =
      { frames := w.frames ++ [.endEv (some (.str m))], closed := true } := by
  unfold closeWith wwriteSafe wwrite wcloseSafe wclose jsTruthyJson
  simp [hw, hm]

theorem scloseSafe_closed (s : Session) : (scloseSafe s).closed = true := by
  unfold scloseSafe sclose
  by_cases h : s.closed
  · simp [h]
  · simp [h]

theorem scloseSafe_idem (s : Session) : scloseSafe (scloseSafe s) = scloseSafe s := by
  unfold scloseSafe sclose
  by_cases h : s.closed
  · simp [h]
  · simp [h]

/-! ### Stream-shape lemmas -/

theorem endTerminal_append_nonend (l : List Ev) (e : Ev)
    (hl : hasEndB l = false) (he : isEnd e = false) :
    endTerminalB (l ++ [e]) = true ∧ hasEndB (l ++ [e]) = false := by
  induction l with
  | nil => simp [endTerminalB, hasEndB, he]
  | cons c l ih =>
    have hc : isEnd c = false := by
      simp only [hasEndB, List.any_cons, Bool.or_eq_false_iff] at hl
      exact hl.1
    have hl' : hasEndB l = false := by
      simp only [hasEndB, List.any_cons, Bool.or_eq_false_iff] at hl
      exact hl.2
    have ih' := ih hl'
    constructor
    · show endTerminalB (c :: (l ++ [e])) = true
      simp [endTerminalB, hc, ih'.1]
    · show hasEndB (c :: (l ++ [e])) = false
      simp only [hasEndB, List.any_cons, Bool.or_eq_false_iff]
      exact ⟨hc, ih'.2⟩

theorem endTerminal_append_end (l : List Ev) (e : Ev)
    (hl : hasEndB l = false) :
    endTerminalB (l ++ [e]) = true := by
  induction l with
  | nil => simp [endTerminalB]
  | cons c l ih =>
    have hc : isEnd c = false := by
      simp only [hasEndB, List.any_cons, Bool.or_eq_false_iff] at hl
      exact hl.1
    have hl' : hasEndB l = false := by
      simp only [hasEndB, List.any_cons, Bool.or_eq_false_iff] at hl
      exact hl.2
    show endTerminalB (c :: (l ++ [e])) = true
    simp [endTerminalB, hc, ih hl']

theorem countEnds_le_one_of_endTerminal (l : List Ev) (h : endTerminalB l = true) :
    countEnds l ≤ 1 := by
  induction l with
  | nil => decide
  | cons e rest ih =>
    by_cases he : isEnd e = true
    · have hrest : rest = [] := by
        have : rest.isEmpty = true := by
          simpa [endTerminalB, he] using h
        exact List.isEmpty_iff.mp this
      subst hrest
      simp [countEnds, he]
    · have hrest : endTerminalB rest = true := by
        simpa [endTerminalB, he] using h
      have heq : countEnds (e :: rest) = countEnds rest := by
        simp [countEnds, List.filter, he]
      have hih := ih hrest
      omega

/-! ### The sequential-delivery invariant -/

theorem stepSeq_inv (st : BState)
    (h1 : endTerminalB st.writer.frames = true)
    (h2 : hasEndB st.writer.frames = false ∨ st.writer.closed = true)
    (s : Signal) :
    endTerminalB (stepSeq st s).writer.frames = true ∧
    (hasEndB (stepSeq st s).writer.frames = false ∨
      (stepSeq st s).writer.closed = true) := by
  by_cases hcl : st.writer.closed = true
  · have hstep : stepSeq st s = st := by
      unfold stepSeq wwrite
      simp [hcl]
    rw [hstep]
    exact ⟨h1, h2⟩
  · have hcl' : st.writer.closed = false := by
      cases hb : st.writer.closed
      · rfl
      · exact absurd hb hcl
    have hend : hasEndB st.writer.frames = false := by
      rcases h2 with h2 | h2
      · exact h2
      · exact absurd h2 hcl
    have hw : wwrite st.writer (firstEv s) =
        .ok { st.writer with frames := st.writer.frames ++ [firstEv s] } := by
      unfold wwrite
      simp [hcl']
    cases s with
    | sopen =>
      have hstep : stepSeq st .sopen =
          { st with writer := { st.writer with
            frames := st.writer.frames ++ [.openEv] } } := by
        unfold stepSeq
        rw [hw]
        rfl
      rw [hstep]
      have h := endTerminal_append_nonend st.writer.frames .openEv hend rfl
      exact ⟨h.1, Or.inl h.2⟩
    | smessage p =>
      by_cases htc : turnCompleteOf p = true
      · have hcont : contOf (.smessage p) = some (true, "turn_complete") := by
          show (if turnCompleteOf p = true then some ((true : Bool), ("turn_complete" : String))
            else none) = _
          rw [if_pos htc]
        have hstep : stepSeq st (.smessage p) =
            { writer := closeWith { st.writer with
                frames := st.writer.frames ++ [.message p] } (some (.str "turn_complete"))
              session := scloseSafe st.session } := by
          unfold stepSeq
          rw [hw, hcont]
          rfl
        rw [hstep, closeWith_open
          { st.writer with frames := st.writer.frames ++ [Ev.message p] }
          (by exact hcl') "turn_complete" (by decide)]
        have hmid := endTerminal_append_nonend st.writer.frames (.message p) hend rfl
        exact ⟨endTerminal_append_end _ _ hmid.2, Or.inr rfl⟩
      · have htc' : turnCompleteOf p = false := by
          cases hb : turnCompleteOf p
          · rfl
          · exact absurd hb htc
        have hcont : contOf (.smessage p) = none := by
          show (if turnCompleteOf p = true then some ((true : Bool), ("turn_complete" : String))
            else none) = _
          rw [if_neg (by simp [htc'])]
        have hstep : stepSeq st (.smessage p) =
            { st with writer := { st.writer with
              frames := st.writer.frames ++ [.message p] } } := by
          unfold stepSeq
          rw [hw, hcont]
          rfl
        rw [hstep]
        have h := endTerminal_append_nonend st.writer.frames (.message p) hend rfl
        exact ⟨h.1, Or.inl h.2⟩
    | serror m =>
      have hstep : stepSeq st (.serror m) =
          { writer := closeWith { st.writer with
              frames := st.writer.frames ++ [.errorEv m] } (some (.str "error"))
            session := scloseSafe st.session } := by
        unfold stepSeq
        rw [hw]
        rfl
      rw [hstep, closeWith_open
        { st.writer with frames := st.writer.frames ++ [Ev.errorEv m] }
        (by exact hcl') "error" (by decide)]
      have hmid := endTerminal_append_nonend st.writer.frames (.errorEv m) hend rfl
      exact ⟨endTerminal_append_end _ _ hmid.2, Or.inr rfl⟩
    | sclose r =>
      have hstep : stepSeq st (.sclose r) =
          { st with writer := closeWith { st.writer with
              frames := st.writer.frames ++ [.closeEv r] } (some (.str "closed")) } := by
        unfold stepSeq
        rw [hw]
        rfl
      rw [hstep, closeWith_open
        { st.writer with frames := st.writer.frames ++ [Ev.closeEv r] }
        (by exact hcl') "closed" (by decide)]
      have hmid := endTerminal_append_nonend st.writer.frames (.closeEv r) hend rfl
      exact ⟨endTerminal_append_end _ _ hmid.2, Or.inr rfl⟩

theorem runSeq_inv (sigs : List Signal) : ∀ st : BState,
    endTerminalB st.writer.frames = true →
    (hasEndB st.writer.frames = false ∨ st.writer.closed = true) →
    endTerminalB ((runSeq st sigs).writer.frames) = true ∧
    (hasEndB ((runSeq st sigs).writer.frames) = false ∨
      (runSeq st sigs).writer.closed = true) := by
  induction sigs with
  | nil => exact fun st h1 h2 => ⟨h1, h2⟩
  | cons s rest ih =>
    intro st h1 h2
    have h := stepSeq_inv st h1 h2 s
    exact ih (stepSeq st s) h.1 h.2

/-! ### Digit and character lemmas -/

theorem digitChar_toNat (d : Nat) (h : d < 10) : (digitChar d).toNat = 48 + d := by
  interval_cases d <;> decide

theorem digitChar_isDigit (d : Nat) (h : d < 10) : (digitChar d).isDigit = true := by
  interval_cases d <;> decide

theorem digitChar_not_ws (d : Nat) (h : d < 10) : (digitChar d).isWhitespace = false := by
  interval_cases d <;> decide

theorem digitChar_ne_nl (d : Nat) (h : d < 10) : digitChar d ≠ '\n' := by
  interval_cases d <;> decide

theorem hexDigitChar_hexVal (d : Nat) (h : d < 16) :
    hexVal (hexDigitChar d) = some d := by
  interval_cases d <;> decide

theorem hexDigitChar_ne_nl (d : Nat) (h : d < 16) : hexDigitChar d ≠ '\n' := by
  interval_cases d <;> decide

theorem natChars_props (n : Nat) :
    ∀ c ∈ natChars n, c.isDigit = true ∧ c.isWhitespace = false ∧ c ≠ '\n' := by
  induction n using Nat.strong_induction_on with
  | _ n ih =>
    unfold natChars
    by_cases h : n < 10
    · simp only [if_pos h, List.mem_singleton]
      rintro c rfl
      exact ⟨digitChar_isDigit n h, digitChar_not_ws n h, digitChar_ne_nl n h⟩
    · simp only [if_neg h, List.mem_append, List.mem_singleton]
      rintro c (hc | rfl)
      · exact ih (n / 10) (Nat.div_lt_self (by omega) (by omega)) c hc
      · have hm : n % 10 < 10 := Nat.mod_lt _ (by omega)
        exact ⟨digitChar_isDigit _ hm, digitChar_not_ws _ hm, digitChar_ne_nl _ hm⟩

theorem natChars_ne_nil (n : Nat) : natChars n ≠ [] := by
  unfold natChars
  by_cases h : n < 10
  · simp [h]
  · simp [h]

/-! ### Parsing a printed number -/

theorem takeWhile_digits_append (l r : List Char)
    (hl : ∀ c ∈ l, c.isDigit = true) (hr : notDigitHead r = true) :
    (l ++ r).takeWhile Char.isDigit = l ∧ (l ++ r).dropWhile Char.isDigit = r := by
  induction l with
  | nil =>
    cases r with
    | nil => exact ⟨rfl, rfl⟩
    | cons c cs =>
      have hc : c.isDigit = false := by
        simp only [notDigitHead, Bool.not_eq_true'] at hr
        exact hr
      constructor
      · simp [List.takeWhile, hc]
      · simp [List.dropWhile, hc]
  | cons c l ihl =>
    have hc : c.isDigit = true := hl c (by simp)
    have ih := ihl (fun x hx => hl x (by simp [hx]))
    constructor
    · simp [List.takeWhile, hc, ih.1]
    · simp [List.dropWhile, hc, ih.2]

theorem digitsToNat_append_digit (ds : List Char) (c : Char) :
    digitsToNat (ds ++ [c]) = 10 * digitsToNat ds + (c.toNat - 48) := by
  simp [digitsToNat, List.foldl_append]

theorem digitsToNat_natChars (n : Nat) : digitsToNat (natChars n) = n := by
  induction n using Nat.strong_induction_on with
  | _ n ih =>
    unfold natChars
    by_cases h : n < 10
    · simp only [if_pos h]
      show digitsToNat [digitChar n] = n
      simp [digitsToNat, digitChar_toNat n h]
    · simp only [if_neg h]
      rw [digitsToNat_append_digit,
        ih (n / 10) (Nat.div_lt_self (by omega) (by omega)),
        digitChar_toNat _ (Nat.mod_lt _ (by omega))]
      omega

theorem parseDigits_natChars (n : Nat) (rest : List Char)
    (hr : notDigitHead rest = true) :
    parseDigits (natChars n ++ rest) = some (n, rest) := by
  have hspan := takeWhile_digits_append (natChars n) rest
    (fun c hc => (natChars_props n c hc).1) hr
  unfold parseDigits
  rw [hspan.1, hspan.2, if_neg (natChars_ne_nil n), digitsToNat_natChars]

/-! ### The string-literal escape roundtrip -/

theorem parseStrBody_escStr (s : List Char) : ∀ rest : List Char,
    parseStrBody (escStr s ++ '"' :: rest) = some (s, rest) := by
  induction s with
  | nil =>
    intro rest
    show parseStrBody ([] ++ '"' :: rest) = some ([], rest)
    rw [List.nil_append, parseStrBody.eq_def]
    simp
  | cons c s ih =>
    intro rest
    show parseStrBody ((escChar c ++ escStr s) ++ '"' :: rest) = some (c :: s, rest)
    rw [List.append_assoc]
    by_cases hc1 : c = '"'
    · subst hc1
      rw [show escChar '"' = ['\\', '"'] from rfl, List.cons_append, List.cons_append,
        parseStrBody.eq_def]
      simp [unescape, ih]
    · by_cases hc2 : c = '\\'
      · subst hc2
        rw [show escChar '\\' = ['\\', '\\'] from rfl, List.cons_append, List.cons_append,
          parseStrBody.eq_def]
        simp [unescape, ih]
      · by_cases hc3 : c = Char.ofNat 8
        · subst hc3
          rw [show escChar (Char.ofNat 8) = ['\\', 'b'] from rfl, List.cons_append,
            List.cons_append, parseStrBody.eq_def]
          simp [unescape, ih]
        · by_cases hc4 : c = '\t'
          · subst hc4
            rw [show escChar '\t' = ['\\', 't'] from rfl, List.cons_append, List.cons_append,
              parseStrBody.eq_def]
            simp [unescape, ih]
          · by_cases hc5 : c = '\n'
            · subst hc5
              rw [show escChar '\n' = ['\\', 'n'] from rfl, List.cons_append, List.cons_append,
                parseStrBody.eq_def]
              simp [unescape, ih]
            · by_cases hc6 : c = Char.ofNat 12
              · subst hc6
                rw [show escChar (Char.ofNat 12) = ['\\', 'f'] from rfl, List.cons_append,
                  List.cons_append, parseStrBody.eq_def]
                simp [unescape, ih]
              · by_cases hc7 : c = Char.ofNat 13
                · subst hc7
                  rw [show escChar (Char.ofNat 13) = ['\\', 'r'] from rfl, List.cons_append,
                    List.cons_append, parseStrBody.eq_def]
                  simp [unescape, ih]
                · by_cases hw : c.toNat < 32
                  · have hesc : escChar c = ['\\', 'u', '0', '0',
                        hexDigitChar (c.toNat / 16), hexDigitChar (c.toNat % 16)] := by
                      simp [escChar, hc1, hc2, hc3, hc4, hc5, hc6, hc7, hw]
                    rw [hesc]
                    have e1 : hexVal (hexDigitChar (c.toNat / 16)) = some (c.toNat / 16) :=
                      hexDigitChar_hexVal _ (by omega)
                    have e2 : hexVal (hexDigitChar (c.toNat % 16)) = some (c.toNat % 16) :=
                      hexDigitChar_hexVal _ (by omega)
                    have hch : Char.ofNat
                        (4096 * 0 + 256 * 0 + 16 * (c.toNat / 16) + c.toNat % 16) = c := by
                      rw [show 4096 * 0 + 256 * 0 + 16 * (c.toNat / 16) + c.toNat % 16 =
                        c.toNat from by omega, Char.ofNat_toNat]
                    have hch2 : Char.ofNat (16 * (c.toNat / 16) + c.toNat % 16) = c := by
                      rw [show 16 * (c.toNat / 16) + c.toNat % 16 = c.toNat from by omega,
                        Char.ofNat_toNat]
                    rw [List.cons_append, List.cons_append, List.cons_append,
                      List.cons_append, List.cons_append, List.cons_append,
                      parseStrBody.eq_def]
                    simp [show hexVal '0' = some 0 from by decide, e1, e2, hch, hch2, ih]
                  · have hesc : escChar c = [c] := by
                      simp [escChar, hc1, hc2, hc3, hc4, hc5, hc6, hc7, hw]
                    rw [hesc, List.cons_append, parseStrBody.eq_def]
                    simp [hc1, hc2, ih]

/-! ### Leading characters of serializations -/

theorem digit_not_ws (c : Char) (h : c.isDigit = true) : c.isWhitespace = false := by
  have h1 : c ≠ ' ' := fun he => by subst he; exact absurd h (by decide)
  have h2 : c ≠ '\t' := fun he => by subst he; exact absurd h (by decide)
  have h3 : c ≠ '\r' := fun he => by subst he; exact absurd h (by decide)
  have h4 : c ≠ '\n' := fun he => by subst he; exact absurd h (by decide)
  simp [Char.isWhitespace, h1, h2, h3, h4]

theorem stringify_goodHead (j : Json) :
    ∃ c cs', stringifyL j = c :: cs' ∧ goodHead c = true := by
  cases j with
  | null => exact ⟨'n', _, rfl, by decide⟩
  | bool b =>
    cases b with
    | false => exact ⟨'f', _, rfl, by decide⟩
    | true => exact ⟨'t', _, rfl, by decide⟩
  | num i =>
    show ∃ c cs', intChars i = c :: cs' ∧ goodHead c = true
    unfold intChars
    by_cases hi : i < 0
    · exact ⟨'-', _, by rw [if_pos hi], by decide⟩
    · rw [if_neg hi]
      obtain ⟨c, cs', heq⟩ := List.exists_cons_of_ne_nil (natChars_ne_nil i.toNat)
      have hdig := (natChars_props i.toNat c (heq ▸ List.mem_cons_self c cs')).1
      exact ⟨c, cs', heq, by simp [goodHead, hdig]⟩
  | str s => exact ⟨'"', _, rfl, by decide⟩
  | arr es => exact ⟨'[', _, rfl, by decide⟩
  | obj fs => exact ⟨'{', _, rfl, by decide⟩

theorem goodHead_ne_rbracket (c : Char) (h : goodHead c = true) : c ≠ ']' := by
  intro he; subst he; exact absurd h (by decide)

theorem goodHead_ne_rbrace (c : Char) (h : goodHead c = true) : c ≠ '}' := by
  intro he; subst he; exact absurd h (by decide)

theorem goodHead_not_ws (c : Char) (h : goodHead c = true) : c.isWhitespace = false := by
  simp only [goodHead, Bool.or_eq_true, beq_iff_eq] at h
  rcases h with ((((((h | rfl) | rfl) | rfl) | rfl) | rfl) | rfl) | rfl
  · exact digit_not_ws c h
  all_goals decide

theorem stringifyElems_goodHead (es : JsonList) (hne : es ≠ .nil) :
    ∃ c cs', stringifyElems es = c :: cs' ∧ goodHead c = true := by
  cases es with
  | nil => exact absurd rfl hne
  | cons j tl =>
    obtain ⟨c, cs', heq, hgood⟩ := stringify_goodHead j
    cases tl with
    | nil => exact ⟨c, cs', heq, hgood⟩
    | cons j2 tl2 =>
      refine ⟨c, cs' ++ ',' :: stringifyElems (.cons j2 tl2), ?_, hgood⟩
      show stringifyL j ++ ',' :: stringifyElems (.cons j2 tl2) = _
      rw [heq]
      rfl

theorem stringifyFields_head (k : String) (v : Json) (tl : JsonFields) :
    ∃ cs', stringifyFields (.cons k v tl) = '"' :: cs' := by
  cases tl with
  | nil => exact ⟨_, rfl⟩
  | cons k2 v2 tl2 => exact ⟨_, rfl⟩

/-! ### Unfolding the bracket branches of the value parser -/

theorem parseVal_lbracket (f : Nat) (r1 : Char) (rr : List Char) (h : ¬r1 = ']') :
    parseVal (f + 1) ('[' :: r1 :: rr) =
      (parseElems f (r1 :: rr)).map (fun p => (Json.arr p.1, p.2)) := by
  simp [parseVal, h]

theorem parseVal_lbrace (f : Nat) (r1 : Char) (rr : List Char) (h : ¬r1 = '}') :
    parseVal (f + 1) ('{' :: r1 :: rr) =
      (parseFields f (r1 :: rr)).map (fun p => (Json.obj p.1, p.2)) := by
  simp [parseVal, h]

/-! ### The serializer / parser roundtrip -/

mutual
theorem parseVal_stringify (j : Json) : ∀ (fuel : Nat) (rest : List Char),
    needFuel j ≤ fuel → notDigitHead rest = true →
    parseVal fuel (stringifyL j ++ rest) = some (j, rest)
  | fuel, rest, hf, hr => by
    cases j with
    | null =>
      cases fuel with
      | zero => exact absurd hf (by decide)
      | succ f => rfl
    | bool b =>
      cases fuel with
      | zero => cases b <;> exact absurd hf (by decide)
      | succ f => cases b <;> rfl
    | num i =>
      cases fuel with
      | zero => exact absurd (show (1 : Nat) ≤ 0 from hf) (by decide)
      | succ f =>
        show parseVal (f + 1) (intChars i ++ rest) = some (.num i, rest)
        unfold intChars
        by_cases hi : i < 0
        · rw [if_pos hi]
          show (parseDigits (natChars i.natAbs ++ rest)).map
            (fun p => (Json.num (-(p.1 : Int)), p.2)) = some (.num i, rest)
          rw [parseDigits_natChars _ _ hr]
          simp only [Option.map_some', Option.some.injEq, Prod.mk.injEq,
            Json.num.injEq, and_true]
          omega
        · rw [if_neg hi]
          obtain ⟨c, cs', heq⟩ := List.exists_cons_of_ne_nil (natChars_ne_nil i.toNat)
          have hdig := (natChars_props i.toNat c (heq ▸ List.mem_cons_self c cs')).1
          rw [heq, List.cons_append]
          simp only [parseVal, hdig, if_pos]
          rw [← List.cons_append, ← heq, parseDigits_natChars _ _ hr]
          simp only [Option.map_some', Option.some.injEq, Prod.mk.injEq,
            Json.num.injEq, and_true]
          omega
    | str s =>
      cases fuel with
      | zero => exact absurd (show (1 : Nat) ≤ 0 from hf) (by decide)
      | succ f =>
        show (parseStrBody ((escStr s.data ++ ['"']) ++ rest)).map
          (fun p => (Json.str (String.mk p.1), p.2)) = some (.str s, rest)
        rw [List.append_assoc, List.singleton_append, parseStrBody_escStr]
        rfl
    | arr es =>
      cases es with
      | nil =>
        cases fuel with
        | zero => exact absurd hf (by decide)
        | succ f => rfl
      | cons j0 tl =>
        have hfa : 1 + needElems (.cons j0 tl) ≤ fuel := hf
        cases fuel with
        | zero => omega
        | succ f =>
          have hassoc : (stringifyL (.arr (.cons j0 tl)) ++ rest) =
              '[' :: (stringifyElems (.cons j0 tl) ++ ']' :: rest) := by
            show ('[' :: (stringifyElems (.cons j0 tl) ++ [']'])) ++ rest = _
            simp
          rw [hassoc]
          obtain ⟨c, cs', heq, hgood⟩ := stringifyElems_goodHead (.cons j0 tl) (by simp)
          rw [heq, List.cons_append,
            parseVal_lbracket f c _ (goodHead_ne_rbracket c hgood),
            ← List.cons_append, ← heq,
            parseElems_stringify (.cons j0 tl) (by simp) f rest (by omega)]
          rfl
    | obj fs =>
      cases fs with
      | nil =>
        cases fuel with
        | zero => exact absurd hf (by decide)
        | succ f => rfl
      | cons k v tl =>
        have hfa : 1 + needFields (.cons k v tl) ≤ fuel := hf
        cases fuel with
        | zero => omega
        | succ f =>
          have hassoc : (stringifyL (.obj (.cons k v tl)) ++ rest) =
              '{' :: (stringifyFields (.cons k v tl) ++ '}' :: rest) := by
            show ('{' :: (stringifyFields (.cons k v tl) ++ ['}'])) ++ rest = _
            simp
          rw [hassoc]
          obtain ⟨cs', heq⟩ := stringifyFields_head k v tl
          rw [heq, List.cons_append,
            parseVal_lbrace f '"' _ (by decide),
            ← List.cons_append, ← heq,
            parseFields_stringify (.cons k v tl) (by simp) f rest (by omega)]
          rfl

theorem parseElems_stringify (es : JsonList) : es ≠ .nil →
    ∀ (fuel : Nat) (rest : List Char), needElems es ≤ fuel →
    parseElems fuel (stringifyElems es ++ ']' :: rest) = some (es, rest)
  | hne, fuel, rest, hf => by
    cases es with
    | nil => exact absurd rfl hne
    | cons j tl =>
      have hfa : 1 + max (needFuel j) (needElems tl) ≤ fuel := hf
      cases fuel with
      | zero => omega
      | succ f =>
        cases tl with
        | nil =>
          have hv := parseVal_stringify j f (']' :: rest) (by omega) rfl
          show parseElems (f + 1) (stringifyL j ++ ']' :: rest) = _
          simp [parseElems, hv]
        | cons j2 tl2 =>
          have hassoc : (stringifyElems (.cons j (.cons j2 tl2)) ++ ']' :: rest) =
              stringifyL j ++ ',' :: (stringifyElems (.cons j2 tl2) ++ ']' :: rest) := by
            show (stringifyL j ++ ',' :: stringifyElems (.cons j2 tl2)) ++ ']' :: rest = _
            simp
          have hv := parseVal_stringify j f
            (',' :: (stringifyElems (.cons j2 tl2) ++ ']' :: rest)) (by omega) rfl
          have htl := parseElems_stringify (.cons j2 tl2) (by simp) f rest (by omega)
          rw [hassoc]
          simp [parseElems, hv, htl]

theorem parseFields_stringify (fs : JsonFields) : fs ≠ .nil →
    ∀ (fuel : Nat) (rest : List Char), needFields fs ≤ fuel →
    parseFields fuel (stringifyFields fs ++ '}' :: rest) = some (fs, rest)
  | hne, fuel, rest, hf => by
    cases fs with
    | nil => exact absurd rfl hne
    | cons k v tl =>
      have hfa : 1 + max (needFuel v) (needFields tl) ≤ fuel := hf
      cases fuel with
      | zero => omega
      | succ f =>
        cases tl with
        | nil =>
          have hassoc : (stringifyFields (.cons k v .nil) ++ '}' :: rest) =
              '"' :: (escStr k.data ++ '"' :: (':' :: (stringifyL v ++ '}' :: rest))) := by
            show ('"' :: (escStr k.data ++ '"' :: ':' :: stringifyL v)) ++ '}' :: rest = _
            simp
          have hk := parseStrBody_escStr k.data (':' :: (stringifyL v ++ '}' :: rest))
          have hv := parseVal_stringify v f ('}' :: rest) (by omega) rfl
          rw [hassoc]
          simp [parseFields, hk, hv]
        | cons k2 v2 tl2 =>
          have hassoc : (stringifyFields (.cons k v (.cons k2 v2 tl2)) ++ '}' :: rest) =
              '"' :: (escStr k.data ++ '"' :: (':' :: (stringifyL v ++
                ',' :: (stringifyFields (.cons k2 v2 tl2) ++ '}' :: rest)))) := by
            show (('"' :: (escStr k.data ++ '"' :: ':' :: stringifyL v)) ++
              ',' :: stringifyFields (.cons k2 v2 tl2)) ++ '}' :: rest = _
            simp
          have hk := parseStrBody_escStr k.data
            (':' :: (stringifyL v ++ ',' :: (stringifyFields (.cons k2 v2 tl2) ++ '}' :: rest)))
          have hv := parseVal_stringify v f
            (',' :: (stringifyFields (.cons k2 v2 tl2) ++ '}' :: rest)) (by omega) rfl
          have htl := parseFields_stringify (.cons k2 v2 tl2) (by simp) f rest (by omega)
          rw [hassoc]
          simp [parseFields, hk, hv, htl]
end

/-! ### Fuel bounds and the whole-frame roundtrip -/

theorem intChars_ne_nil (i : Int) : intChars i ≠ [] := by
  unfold intChars
  by_cases hi : i < 0
  · simp [hi]
  · simp [hi, natChars_ne_nil]

mutual
theorem needFuel_le (j : Json) : needFuel j ≤ (stringifyL j).length := by
  cases j with
  | null => decide
  | bool b => cases b <;> decide
  | num i =>
    show 1 ≤ (intChars i).length
    exact List.length_pos.mpr (intChars_ne_nil i)
  | str s =>
    show 1 ≤ ('"' :: (escStr s.data ++ ['"'])).length
    simp
  | arr es =>
    cases es with
    | nil => decide
    | cons j0 tl =>
      have h := needElems_le (.cons j0 tl)
      have hlen : (stringifyL (.arr (.cons j0 tl))).length =
          (stringifyElems (.cons j0 tl)).length + 2 := by
        show ('[' :: (stringifyElems (.cons j0 tl) ++ [']'])).length = _
        simp
      show 1 + needElems (.cons j0 tl) ≤ (stringifyL (.arr (.cons j0 tl))).length
      omega
  | obj fs =>
    cases fs with
    | nil => decide
    | cons k v tl =>
      have h := needFields_le (.cons k v tl)
      have hlen : (stringifyL (.obj (.cons k v tl))).length =
          (stringifyFields (.cons k v tl)).length + 2 := by
        show ('{' :: (stringifyFields (.cons k v tl) ++ ['}'])).length = _
        simp
      show 1 + needFields (.cons k v tl) ≤ (stringifyL (.obj (.cons k v tl))).length
      omega

theorem needElems_le (es : JsonList) : needElems es ≤ (stringifyElems es).length + 1 := by
  cases es with
  | nil => decide
  | cons j tl =>
    have hj := needFuel_le j
    cases tl with
    | nil =>
      show 1 + max (needFuel j) (needElems .nil) ≤ (stringifyL j).length + 1
      have : needElems JsonList.nil = 0 := rfl
      omega
    | cons j2 tl2 =>
      have htl := needElems_le (.cons j2 tl2)
      have hlen : (stringifyElems (.cons j (.cons j2 tl2))).length =
          (stringifyL j).length + 1 + (stringifyElems (.cons j2 tl2)).length := by
        show (stringifyL j ++ ',' :: stringifyElems (.cons j2 tl2)).length = _
        simp
        omega
      show 1 + max (needFuel j) (needElems (.cons j2 tl2)) ≤ _ + 1
      omega

theorem needFields_le (fs : JsonFields) : needFields fs ≤ (stringifyFields fs).length + 1 := by
  cases fs with
  | nil => decide
  | cons k v tl =>
    have hv := needFuel_le v
    cases tl with
    | nil =>
      have hlen : (stringifyFields (.cons k v .nil)).length =
          (escStr k.data).length + 3 + (stringifyL v).length := by
        show ('"' :: (escStr k.data ++ '"' :: ':' :: stringifyL v)).length = _
        simp
        omega
      show 1 + max (needFuel v) (needFields .nil) ≤ _ + 1
      have : needFields JsonFields.nil = 0 := rfl
      omega
    | cons k2 v2 tl2 =>
      have htl := needFields_le (.cons k2 v2 tl2)
      have hlen : (stringifyFields (.cons k v (.cons k2 v2 tl2))).length =
          (escStr k.data).length + 4 + (stringifyL v).length +
            (stringifyFields (.cons k2 v2 tl2)).length := by
        show (('"' :: (escStr k.data ++ '"' :: ':' :: stringifyL v)) ++
          ',' :: stringifyFields (.cons k2 v2 tl2)).length = _
        simp
        omega
      show 1 + max (needFuel v) (needFields (.cons k2 v2 tl2)) ≤ _ + 1
      omega
end

theorem jsonDecodeAll_stringify (j : Json) : jsonDecodeAll (stringifyL j) = some j := by
  unfold jsonDecodeAll
  have h := parseVal_stringify j ((stringifyL j).length + 1) []
    (by have := needFuel_le j; omega) rfl
  rw [List.append_nil] at h
  rw [h]

theorem stripEndNLNL_append (l : List Char) : stripEndNLNL (l ++ ['\n', '\n']) = some l := by
  unfold stripEndNLNL
  rw [List.reverse_append]
  show some l.reverse.reverse = some l
  rw [List.reverse_reverse]

theorem parseSSEFrame_stringify (j : Json) : parseSSEFrame (sseFrameOfJson j) = some j := by
  unfold parseSSEFrame
  rw [show (sseFrameOfJson j).data = ("data: ".data ++ stringifyL j) ++ ['\n', '\n'] from rfl]
  rw [stripEndNLNL_append]
  show jsonDecodeAll ((' ' :: stringifyL j).dropWhile Char.isWhitespace) = some j
  obtain ⟨c, cs', heq, hgood⟩ := stringify_goodHead j
  have hdrop : (' ' :: stringifyL j).dropWhile Char.isWhitespace = stringifyL j := by
    rw [heq]
    show (' ' :: (c :: cs')).dropWhile Char.isWhitespace = c :: cs'
    have hw := goodHead_not_ws c hgood
    simp [List.dropWhile, hw]
  rw [hdrop]
  exact jsonDecodeAll_stringify j

/-! ### No newline inside a serialization -/

theorem nl_not_mem_escChar (c : Char) : '\n' ∉ escChar c := by
  unfold escChar
  split_ifs with hc1 hc2 hc3 hc4 hc5 hc6 hc7 hw
  · decide
  · decide
  · decide
  · decide
  · decide
  · decide
  · decide
  · intro hm
    simp only [List.mem_cons, List.not_mem_nil, or_false] at hm
    rcases hm with h | h | h | h | h | h
    · exact absurd h (by decide)
    · exact absurd h (by decide)
    · exact absurd h (by decide)
    · exact absurd h (by decide)
    · exact hexDigitChar_ne_nl (c.toNat / 16) (by omega) h.symm
    · exact hexDigitChar_ne_nl (c.toNat % 16) (by omega) h.symm
  · intro hm
    simp only [List.mem_singleton] at hm
    subst hm
    exact hw (by decide)

theorem nl_not_mem_escStr (s : List Char) : '\n' ∉ escStr s := by
  induction s with
  | nil => simp [escStr]
  | cons c s ih =>
    show '\n' ∉ escChar c ++ escStr s
    rw [List.mem_append]
    rintro (h | h)
    · exact nl_not_mem_escChar c h
    · exact ih h

mutual
theorem nl_not_mem_stringify (j : Json) : '\n' ∉ stringifyL j := by
  cases j with
  | null => decide
  | bool b => cases b <;> decide
  | num i =>
    show '\n' ∉ intChars i
    unfold intChars
    by_cases hi : i < 0
    · rw [if_pos hi]
      intro hm
      rcases List.mem_cons.mp hm with h | h
      · exact absurd h (by decide)
      · exact (natChars_props i.natAbs '\n' h).2.2 rfl
    · rw [if_neg hi]
      intro hm
      exact (natChars_props i.toNat '\n' hm).2.2 rfl
  | str s =>
    show '\n' ∉ '"' :: (escStr s.data ++ ['"'])
    intro hm
    rcases List.mem_cons.mp hm with h | h
    · exact absurd h (by decide)
    · rcases List.mem_append.mp h with h2 | h2
      · exact nl_not_mem_escStr s.data h2
      · exact absurd h2 (by decide)
  | arr es =>
    show '\n' ∉ '[' :: (stringifyElems es ++ [']'])
    intro hm
    rcases List.mem_cons.mp hm with h | h
    · exact absurd h (by decide)
    · rcases List.mem_append.mp h with h2 | h2
      · exact nl_not_mem_elems es h2
      · exact absurd h2 (by decide)
  | obj fs =>
    show '\n' ∉ '{' :: (stringifyFields fs ++ ['}'])
    intro hm
    rcases List.mem_cons.mp hm with h | h
    · exact absurd h (by decide)
    · rcases List.mem_append.mp h with h2 | h2
      · exact nl_not_mem_fields fs h2
      · exact absurd h2 (by decide)

theorem nl_not_mem_elems (es : JsonList) : '\n' ∉ stringifyElems es := by
  cases es with
  | nil => simp [stringifyElems]
  | cons j tl =>
    cases tl with
    | nil => exact nl_not_mem_stringify j
    | cons j2 tl2 =>
      show '\n' ∉ stringifyL j ++ ',' :: stringifyElems (.cons j2 tl2)
      intro hm
      rcases List.mem_append.mp hm with h | h
      · exact nl_not_mem_stringify j h
      · rcases List.mem_cons.mp h with h2 | h2
        · exact absurd h2 (by decide)
        · exact nl_not_mem_elems (.cons j2 tl2) h2

theorem nl_not_mem_fields (fs : JsonFields) : '\n' ∉ stringifyFields fs := by
  cases fs with
  | nil => simp [stringifyFields]
  | cons k v tl =>
    cases tl with
    | nil =>
      show '\n' ∉ '"' :: (escStr k.data ++ '"' :: ':' :: stringifyL v)
      intro hm
      rcases List.mem_cons.mp hm with h | h
      · exact absurd h (by decide)
      · rcases List.mem_append.mp h with h2 | h2
        · exact nl_not_mem_escStr k.data h2
        · rcases List.mem_cons.mp h2 with h3 | h3
          · exact absurd h3 (by decide)
          · rcases List.mem_cons.mp h3 with h4 | h4
            · exact absurd h4 (by decide)
            · exact nl_not_mem_stringify v h4
    | cons k2 v2 tl2 =>
      show '\n' ∉ ('"' :: (escStr k.data ++ '"' :: ':' :: stringifyL v)) ++
        ',' :: stringifyFields (.cons k2 v2 tl2)
      intro hm
      rcases List.mem_append.mp hm with h | h
      · rcases List.mem_cons.mp h with h2 | h2
        · exact absurd h2 (by decide)
        · rcases List.mem_append.mp h2 with h3 | h3
          · exact nl_not_mem_escStr k.data h3
          · rcases List.mem_cons.mp h3 with h4 | h4
            · exact absurd h4 (by decide)
            · rcases List.mem_cons.mp h4 with h5 | h5
              · exact absurd h5 (by decide)
              · exact nl_not_mem_stringify v h5
      · rcases List.mem_cons.mp h with h2 | h2
        · exact absurd h2 (by decide)
        · exact nl_not_mem_fields (.cons k2 v2 tl2) h2
end

theorem occursNLNL_append_nl (l : List Char) (h : '\n' ∉ l) :
    occursNLNL (l ++ ['\n', '\n']) = 1 := by
  induction l with
  | nil => rfl
  | cons c l ih =>
    have hc : c ≠ '\n' := fun he => h (he ▸ List.mem_cons_self c l)
    have h' : '\n' ∉ l := fun hm => h (List.mem_cons_of_mem c hm)
    cases hl : l ++ ['\n', '\n'] with
    | nil => exact absurd hl (by simp)
    | cons b rest =>
      rw [show (c :: l) ++ ['\n', '\n'] = c :: (l ++ ['\n', '\n']) from rfl, hl]
      show (if c = '\n' ∧ b = '\n' then 1 else 0) + occursNLNL (b :: rest) = 1
      rw [if_neg (fun hand => hc hand.1), ← hl, ih h']

/-- C1: the claim states that for every input shape both normalizers yield a
sequence of length at least one, with absent/empty/malformed inputs mapped
to exactly `["Hello!"]`.  The POST normalizer violates this on the empty
list: `Array.isArray([])` is true, so `input: []` passes through unchanged
and a zero-length turn sequence is submitted to the session, while the GET
twin substitutes the default as claimed.  This theorem evaluates both
normalizers at the failing input. -/
theorem claim_C1_empty_array :
    normalizeTurns (.arr []) = [] ∧
    (normalizeTurns (.arr [])).length = 0 ∧
    getTurns [] = [defaultTurn] ∧
    POSTmodel envKeyOnly { input := .arr [] } =
      .streamOpened [] defaultModel (.apiKeyClient "k" none) := by
  refine ⟨rfl, rfl, rfl, ?_⟩
  rfl

/-- C2: the claim states the computed CORS headers never simultaneously
contain a wildcard allow-origin and allow-credentials true.  The code sets
the allow-credentials header from the env flag unconditionally, after the
origin branch, so with `CORS_ALLOW_ORIGINS="*"` (or unset) and
`CORS_ALLOW_CREDENTIALS="true"` both headers are present — contradicting
the comment at src/route.ts line 38.  This theorem evaluates `corsHeaders`
at that configuration. -/
theorem claim_C2_wildcard_with_credentials :
    (corsHeaders envWildcardCred (some "https://a.example")).allowOrigin = some "*" ∧
    (corsHeaders envWildcardCred (some "https://a.example")).allowCredentials = some "true" ∧
    (corsHeaders { CORS_ALLOW_CREDENTIALS := some "true" } none).allowOrigin = some "*" ∧
    (corsHeaders { CORS_ALLOW_CREDENTIALS := some "true" } none).allowCredentials =
      some "true" := by
  refine ⟨?_, ?_, ?_, ?_⟩ <;> decide

/-- C6: with no truthy API key and no complete hosted-identity configuration,
`createGenAI` throws, so both `POST` and non-health `GET` answer with a
500 JSON error whose message names the missing variables, and the outcome is
structurally distinct from opening a stream or session. -/
theorem claim_C6_missing_credentials (env : Env)
    (hkey : jsTruthyStr env.GOOGLE_API_KEY = false)
    (hkey2 : jsTruthyStr env.GEMINI_API_KEY = false)
    (hvertex : (decide (env.GOOGLE_GENAI_USE_VERTEXAI = some "true") &&
      (jsTruthyStr env.GOOGLE_CLOUD_PROJECT && jsTruthyStr env.GOOGLE_CLOUD_LOCATION)) =
      false) :
    ∀ (body : PostBody) (input : List String) (modelOverride : Option String),
      (POSTmodel env body = .jsonError 500 vertexMissingMsg ∨
        POSTmodel env body = .jsonError 500 missingKeyMsg) ∧
      (GETmodel env false input modelOverride = .jsonError 500 vertexMissingMsg ∨
        GETmodel env false input modelOverride = .jsonError 500 missingKeyMsg) ∧
      strContains vertexMissingMsg "GOOGLE_CLOUD_PROJECT" = true ∧
      strContains vertexMissingMsg "GOOGLE_CLOUD_LOCATION" = true ∧
      strContains missingKeyMsg "GOOGLE_API_KEY" = true ∧
      strContains missingKeyMsg "GEMINI_API_KEY" = true := by
  intro body input modelOverride
  have herr : createGenAI env = .error vertexMissingMsg ∨
      createGenAI env = .error missingKeyMsg := by
    unfold createGenAI
    by_cases hv : env.GOOGLE_GENAI_USE_VERTEXAI = some "true"
    · left
      simp only [hv, if_pos rfl]
      simp only [decide_eq_true hv, Bool.true_and] at hvertex
      simp [hv, hvertex]
    · right
      have hb : decide (env.GOOGLE_GENAI_USE_VERTEXAI = some "true") = false :=
        decide_eq_false hv
      simp [hv, jsOr, hkey, hkey2]
  refine ⟨?_, ?_, by decide, by decide, by decide, by decide⟩
  · rcases herr with h | h
    · left; simp [POSTmodel, h]
    · right; simp [POSTmodel, h]
  · rcases herr with h | h
    · left; simp [GETmodel, h]
    · right; simp [GETmodel, h]

/-- C6 witness: the all-unset environment is a concrete instance of the
missing-credential hypotheses, and there the 500 JSON outcome is the
missing-key message. -/
theorem claim_C6_missing_credentials_witness :
    (POSTmodel envEmpty {} = .jsonError 500 vertexMissingMsg ∨
      POSTmodel envEmpty {} = .jsonError 500 missingKeyMsg) ∧
    (GETmodel envEmpty false [] none = .jsonError 500 vertexMissingMsg ∨
      GETmodel envEmpty false [] none = .jsonError 500 missingKeyMsg) ∧
    strContains vertexMissingMsg "GOOGLE_CLOUD_PROJECT" = true ∧
    strContains vertexMissingMsg "GOOGLE_CLOUD_LOCATION" = true ∧
    strContains missingKeyMsg "GOOGLE_API_KEY" = true ∧
    strContains missingKeyMsg "GEMINI_API_KEY" = true :=
  claim_C6_missing_credentials envEmpty (by decide) (by decide) (by decide) {} [] none

/-- C9: in the POST normalization every array input passes through
unchanged, so `input: []` yields the empty turn sequence (and it is that
empty sequence which gets submitted to the session), whereas the GET
handler substitutes the default turn for an empty input list. -/
theorem claim_C9_array_passthrough :
    (∀ xs : List String, normalizeTurns (.arr xs) = xs) ∧
    normalizeTurns (.arr []) ≠ [defaultTurn] ∧
    POSTmodel envKeyOnly { input := .arr [] } =
      .streamOpened [] defaultModel (.apiKeyClient "k" none) ∧
    getTurns [] = [defaultTurn] := by
  refine ⟨fun xs => rfl, by decide, by rfl, rfl⟩

/-- C10: `parseAllowedOrigins` yields the wildcard exactly when the value is
unset, trims to the literal star, or has no non-empty comma-separated
entries after trimming (which covers the unset, whitespace-only and
commas-only cases); otherwise it yields exactly the trimmed non-empty
entries in their original order. -/
theorem claim_C10_parse_allowed_origins :
    parseAllowedOrigins none = .wildcard ∧
    ∀ s : String,
      parseAllowedOrigins (some s) =
        if jsTrim s = "*" ∨ originEntries s = [] then .wildcard
        else .list (originEntries s) := by
  refine ⟨rfl, fun s => ?_⟩
  simp only [parseAllowedOrigins]
  by_cases h1 : jsTrim s = ""
  · have hEnt : originEntries s = [] := by
      unfold originEntries
      rw [h1]
      decide
    have h3 := hEnt
    unfold originEntries at h3
    rw [if_pos (Or.inl h1), if_pos (Or.inr hEnt)]
  · by_cases h2 : jsTrim s = "*"
    · rw [if_pos (Or.inr h2), if_pos (Or.inl h2)]
    · have c1 : ¬(jsTrim s = "" ∨ jsTrim s = "*") := by simp [h1, h2]
      rw [if_neg c1]
      by_cases h3 : originEntries s = []
      · have h3' := h3
        unfold originEntries at h3'
        rw [if_pos h3', if_pos (Or.inr h3)]
      · have h3' := h3
        unfold originEntries at h3'
        have c2 : ¬(jsTrim s = "*" ∨ originEntries s = []) := by simp [h2, h3]
        rw [if_neg h3', if_neg c2]
        unfold originEntries
        rfl

/-- C7: encoding any outbound event with the SSE event encoder and parsing
the frame back (split on the two-newline terminator, strip the `data:`
prefix, JSON-decode) recovers exactly the JSON value of the original event,
and reading that JSON value back as an event recovers the event itself —
the roundtrip is the identity, over the integer-numbered JSON fragment. -/
theorem claim_C7_roundtrip (e : Ev) :
    parseSSEFrame (sseEvent e) = some (evToJson e) ∧
    evOfJson (evToJson e) = some e := by
  refine ⟨parseSSEFrame_stringify (evToJson e), ?_⟩
  cases e with
  | openEv => rfl
  | message p => rfl
  | closeEv r => rfl
  | endEv m => cases m with
    | none => rfl
    | some x => rfl
  | errorEv m => rfl

/-- C8: every encoded SSE frame is its body followed by the two-character
newline-newline terminator, the body contains no newline at all (the
serializer escapes every control character), and the two-newline sequence
occurs exactly once in the frame — as its final two characters. -/
theorem claim_C8_single_terminator (e : Ev) :
    (sseEvent e).data = frameBody e ++ ['\n', '\n'] ∧
    '\n' ∉ frameBody e ∧
    occursNLNL (sseEvent e).data = 1 := by
  have hb : '\n' ∉ frameBody e := by
    unfold frameBody
    intro hm
    rcases List.mem_append.mp hm with h | h
    · exact absurd h (by decide)
    · exact nl_not_mem_stringify (evToJson e) h
  have hdata : (sseEvent e).data = frameBody e ++ ['\n', '\n'] := rfl
  exact ⟨hdata, hb, by rw [hdata]; exact occursNLNL_append_nl _ hb⟩

/-- C3 counterexample: the claim states that a fault followed by a closure
from the open session produces the exact event-type sequence
open, error, close, end.  Under neither delivery schedule does the bridge
produce that sequence: with the fault and the closure delivered in the same
synchronous turn (the schedule of the repository's simulated session) the
closure callback's finalizer appends a second end frame, and with the
signals delivered in separate turns the close frame's write is rejected by
the already-finalized stream, so no close frame appears at all. -/
theorem claim_C3_counterexample :
    evTypes ((runBatch initialBState
        [.sopen, .serror "boom", .sclose "done"]).writer.frames) =
      ["open", "error", "close", "end", "end"] ∧
    (evTypes ((runBatch initialBState
        [.sopen, .serror "boom", .sclose "done"]).writer.frames) ==
      ["open", "error", "close", "end"]) = false ∧
    evTypes ((runSeq initialBState
        [.sopen, .serror "boom", .sclose "done"]).writer.frames) =
      ["open", "error", "end"] ∧
    (evTypes ((runSeq initialBState
        [.sopen, .serror "boom", .sclose "done"]).writer.frames) ==
      ["open", "error", "close", "end"]) = false := by
  exact ⟨rfl, rfl, rfl, rfl⟩

/-- C3 amended: after open, a fault then a closure delivered in the same
synchronous turn yield the frames open, error, close, end with message
error, end with message closed (the error-path finalizer runs first, and
the close-path finalizer, already past its own write when the stream
closes, appends a second end); delivered in separate turns they yield
open, error, end with message error, the close frame being rejected by the
finalized stream. -/
theorem claim_C3_amended :
    (runBatch initialBState [.sopen, .serror "boom", .sclose "done"]).writer.frames =
      [.openEv, .errorEv "boom", .closeEv "done",
       .endEv (some (.str "error")), .endEv (some (.str "closed"))] ∧
    (runSeq initialBState [.sopen, .serror "boom", .sclose "done"]).writer.frames =
      [.openEv, .errorEv "boom", .endEv (some (.str "error"))] := by
  exact ⟨rfl, rfl⟩

/-- C4 counterexample: the claim states that in every run, once an end
frame is written no further frame follows and at most one end frame
appears.  In the same-turn fault-then-closure run, the first end frame is
followed by a second one: the stream ends with two end frames, so the
end-is-terminal predicate fails and the end count is two (the stream is
still finalized). -/
theorem claim_C4_counterexample :
    endTerminalB ((runBatch initialBState
        [.sopen, .serror "boom", .sclose "done"]).writer.frames) = false ∧
    countEnds ((runBatch initialBState
        [.sopen, .serror "boom", .sclose "done"]).writer.frames) = 2 ∧
    (runBatch initialBState
        [.sopen, .serror "boom", .sclose "done"]).writer.closed = true := by
  exact ⟨rfl, rfl, rfl⟩

/-- C4 amended: when each remote signal is delivered in its own event-loop
turn (each callback completes before the next signal arrives), every run
from the initial state satisfies the claim: any end frame is the final
frame of the stream, at most one end frame appears, and whenever an end
frame exists the writer has been closed.  Two terminal callbacks racing in
one turn may instead append a second end frame, as the counterexample
shows. -/
theorem claim_C4_amended (sigs : List Signal) :
    endTerminalB ((runSeq initialBState sigs).writer.frames) = true ∧
    (hasEndB ((runSeq initialBState sigs).writer.frames) = false ∨
      (runSeq initialBState sigs).writer.closed = true) ∧
    countEnds ((runSeq initialBState sigs).writer.frames) ≤ 1 := by
  have h := runSeq_inv sigs initialBState rfl (Or.inl rfl)
  exact ⟨h.1, h.2, countEnds_le_one_of_endTerminal _ h.1⟩

/-- C5: the finalizer is idempotent and total: running `closeWith` again
after it has already run changes nothing — no duplicate end frame and no
error (every internal failure is swallowed, which is why `closeWith` and
`scloseSafe` are total functions); likewise closing an already-closed
session handle through the guarded call is a no-op. -/
theorem claim_C5_idempotent_finalize (w : Writer) (m m2 : Option Json) (s : Session) :
    closeWith (closeWith w m) m2 = closeWith w m ∧
    (closeWith w m).closed = true ∧
    scloseSafe (scloseSafe s) = scloseSafe s ∧
    (scloseSafe s).closed = true := by
  exact ⟨closeWith_of_closed _ (closeWith_closed w m) m2, closeWith_closed w m,
    scloseSafe_idem s, scloseSafe_closed s⟩

end GeminiStream
